import Mathlib

/-!
Verification development for the Google Alerts feed summarizer
(`main.py`).  The pipeline's pure core is embedded shallowly:

* `extract_original_url` — the URL resolver (query/fragment target
  extraction), together with models of the pieces of Python's
  `urllib.parse` that it uses (`urlparse` query/fragment splitting,
  `parse_qs`, `unquote`).  Percent-decoding is modelled at the
  byte/Latin-1 level (multi-byte UTF-8 recombination is immaterial to
  every property below).
* `fetch_text` — the two-strategy content fetcher, with the external
  effects (`trafilatura.fetch_url`, `requests.get`,
  `trafilatura.extract`) abstracted as `Except`-valued oracles so that
  exception propagation is visible in the model.
* `summarize_text` / `summarize_sents` — the extractive summarizer's
  selection and post-processing logic, with the external sentence
  tokenizer and the TextRank sentence scores abstracted as oracles; the
  top-k-by-score/emit-in-document-order selection of
  `sumy`'s `_get_best_sentences` is modelled concretely.
* `runMain` — the run loop of `main`: per-feed collection with
  dedup against the seen set loaded at start, the fetch/summarize loop
  that accumulates results and marks uids seen, and the history merge.
  File I/O is at the boundary: the loaded seen set and history are
  parameters, the returned state is what gets persisted.
-/

/-- Whitespace test matching the characters the source's regular
expression `\s` treats as whitespace for ASCII input. -/
def isWs (c : Char) : Bool :=
  c = ' ' || c = '\t' || c = '\n' || c = '\x0d' || c = '\x0b' || c = '\x0c'

/-- Value of a hexadecimal digit, `none` for non-hex characters. -/
def hexVal (c : Char) : Option Nat :=
  if '0' ≤ c ∧ c ≤ '9' then some (c.toNat - '0'.toNat)
  else if 'a' ≤ c ∧ c ≤ 'f' then some (c.toNat - 'a'.toNat + 10)
  else if 'A' ≤ c ∧ c ≤ 'F' then some (c.toNat - 'A'.toNat + 10)
  else none

/-- Percent-decoding on character lists: a `%` followed by two hex
digits becomes the corresponding byte; an invalid escape is kept
verbatim, as in `urllib.parse.unquote`. -/
def unquoteChars : List Char → List Char
  | [] => []
  | '%' :: a :: b :: rest =>
      match hexVal a, hexVal b with
      | some x, some y => Char.ofNat (16 * x + y) :: unquoteChars rest
      | _, _ => '%' :: unquoteChars (a :: b :: rest)
  | c :: rest => c :: unquoteChars rest

/-- Model of `urllib.parse.unquote` (byte-level). -/
def unquote (s : String) : String := String.mk (unquoteChars s.data)

/-- Model of `urllib.parse.unquote_plus`: `+` becomes a space, then
percent-decoding. -/
def unquote_plus (l : List Char) : String :=
  String.mk (unquoteChars (l.map fun c => if c = '+' then ' ' else c))

/-- Split a character list on every occurrence of `sep`
(like Python's `str.split(sep)`; the empty list yields `[[]]`). -/
def splitOnChar (sep : Char) : List Char → List (List Char)
  | [] => [[]]
  | c :: rest =>
      let r := splitOnChar sep rest
      if c = sep then [] :: r
      else match r with
        | [] => [[c]]
        | g :: gs => (c :: g) :: gs

/-- Split a character list at the first occurrence of `sep`;
`none` when `sep` does not occur (like `str.split(sep, 1)`). -/
def splitFirstChar (sep : Char) : List Char → Option (List Char × List Char)
  | [] => none
  | c :: rest =>
      if c = sep then some ([], rest)
      else match splitFirstChar sep rest with
        | none => none
        | some (a, b) => some (c :: a, b)

/-- Model of `urllib.parse.parse_qsl` with its default arguments:
split the query string on `&`, skip empty chunks, skip chunks without
`=`, skip pairs whose value is empty (`keep_blank_values=False`), and
`unquote_plus` both name and value. -/
def parse_qsl (qs : List Char) : List (String × String) :=
  (splitOnChar '&' qs).filterMap fun nv =>
    if nv = [] then none
    else
      match splitFirstChar '=' nv with
      | none => none
      | some (n, v) => if v = [] then none else some (unquote_plus n, unquote_plus v)

/-- First value stored under key `k`; models `qs[k][0]` guarded by
`k in qs` on the dictionary built by `urllib.parse.parse_qs`. -/
def firstVal (l : List (String × String)) (k : String) : Option String :=
  (l.find? fun p => decide (p.1 = k)).map (·.2)

/-- Fragment of a URL: everything after the first `#`
(as in `urllib.parse.urlparse`). -/
def splitFragment (url : String) : String × String :=
  match splitFirstChar '#' url.data with
  | none => (url, "")
  | some (a, b) => (String.mk a, String.mk b)

/-- Query of a pre-fragment URL part: everything after its first `?`
(as in `urllib.parse.urlparse`). -/
def splitQuery (s : String) : String × String :=
  match splitFirstChar '?' s.data with
  | none => (s, "")
  | some (a, b) => (String.mk a, String.mk b)

/-- Query component of a URL, per `urlparse`. -/
def queryOf (url : String) : String := (splitQuery (splitFragment url).1).2

/-- Fragment component of a URL, per `urlparse`. -/
def fragOf (url : String) : String := (splitFragment url).2

/-- Parsed query-string pairs of the URL's query component. -/
def qsQuery (url : String) : List (String × String) := parse_qsl (queryOf url).data

/-- Parsed query-string pairs of the URL's fragment component. -/
def qsFrag (url : String) : List (String × String) := parse_qsl (fragOf url).data

/-- Embedding of `extract_original_url` (main.py lines 74-88): try the
query parameters `url` then `q`, then only `url` inside the fragment;
each hit is `unquote`d once more; otherwise the link is returned
unchanged.  The Python body is wrapped in a blanket `try/except`
returning `url`, so parse failures also degrade to the identity; the
model's parsing functions are total, so that branch is inlined away. -/
def extract_original_url (url : String) : String :=
  match firstVal (qsQuery url) "url" with
  | some v => unquote v
  | none =>
    match firstVal (qsQuery url) "q" with
    | some v => unquote v
    | none =>
      match firstVal (qsFrag url) "url" with
      | some v => unquote v
      | none => url

example :
    extract_original_url "https://www.google.com/url?q=https%3A%2F%2Fexample.com%2Fa&x=1"
      = "https://example.com/a" := by decide

example :
    extract_original_url "https://alerts.google.com/x#q=https%3A%2F%2Fexample.com%2Fa"
      = "https://alerts.google.com/x#q=https%3A%2F%2Fexample.com%2Fa" := by decide

example :
    extract_original_url "https://x.test/a#url=https%3A%2F%2Fy.test%2Fb"
      = "https://y.test/b" := by decide

example : extract_original_url "https://example.com/a" = "https://example.com/a" := by decide

/-- Result of `trafilatura.extract` applied to a payload: `error` when
the library raises, `ok none` when it returns `None`, `ok (some t)`
when it returns text.  With the source's `text or ""` this becomes an
`Except Unit String` (main.py lines 118-128). -/
def extractStage (extract : String → Except Unit (Option String)) (payload : String) :
    Except Unit String :=
  match extract payload with
  | Except.error e => Except.error e
  | Except.ok r => Except.ok (r.getD "")

/-- Embedding of `fetch_text` (main.py lines 90-128).  The three
external effects are oracles:

* `fetchUrl` — `trafilatura.fetch_url(url)`: may raise (`error`),
  return `None`, or return a payload; the surrounding `try/except`
  turns a raise into `downloaded = None`;
* `requestsGet` — the `requests.get(...)` / `raise_for_status` /
  `.text` block: its `try/except` turns any raise (network error or
  non-2xx status) into an early `return ""`;
* `extract` — `trafilatura.extract(downloaded, ...)`, which the source
  calls with no exception handler, so a raise propagates out of
  `fetch_text`.

Python truthiness makes `if not downloaded` treat both `None` and the
empty string as "no payload".  The `url`/`timeout` arguments are
absorbed into the oracles. -/
def fetch_text (fetchUrl : Except Unit (Option String)) (requestsGet : Except Unit String)
    (extract : String → Except Unit (Option String)) : Except Unit String :=
  let downloaded : Option String :=
    match fetchUrl with
    | Except.ok d => d
    | Except.error _ => none
  match downloaded with
  | none =>
      match requestsGet with
      | Except.error _ => Except.ok ""
      | Except.ok t => extractStage extract t
  | some d =>
      if d = "" then
        match requestsGet with
        | Except.error _ => Except.ok ""
        | Except.ok t => extractStage extract t
      else extractStage extract d

/-- Sentence-level whitespace collapse: model of
`re.sub(r"\s+", " ", s)` (each maximal whitespace run becomes one
space), written with a previous-was-whitespace flag. -/
def collapseWsAux : Bool → List Char → List Char
  | _, [] => []
  | prevWs, c :: rest =>
      if isWs c then
        if prevWs then collapseWsAux true rest
        else ' ' :: collapseWsAux true rest
      else c :: collapseWsAux false rest

/-- Model of `re.sub(r"\s+", " ", s)`. -/
def collapseWs (s : String) : String := String.mk (collapseWsAux false s.data)

/-- Model of Python's `str.strip()` (whitespace strip at both ends),
used for `.strip()` on titles and links; written over character lists
so that it evaluates by kernel reduction. -/
def pyStrip (s : String) : String :=
  String.mk (((s.data.dropWhile isWs).reverse.dropWhile isWs).reverse)

/-- Character class stripped by `.strip(" .")`. -/
def isDotSpace (c : Char) : Bool := c = ' ' || c = '.'

/-- Model of `s.strip(" .")`: drop spaces and periods from both ends. -/
def stripDotSpace (s : String) : String :=
  String.mk (((s.data.dropWhile isDotSpace).reverse.dropWhile isDotSpace).reverse)

/-- The per-sentence cleanup of main.py line 145:
`re.sub(r"\s+", " ", s).strip(" .")`. -/
def normalizeSentence (s : String) : String := stripDotSpace (collapseWs s)

/-- Truthiness of `s.strip()`: the string has a non-whitespace
character. -/
def hasNonWs (s : String) : Bool := s.data.any fun c => !(isWs c)

/-- Stable insertion used by `sortBy`. -/
def insertBy (le : Nat → Nat → Bool) (a : Nat) : List Nat → List Nat
  | [] => [a]
  | b :: bs => if le a b then a :: b :: bs else b :: insertBy le a bs

/-- Stable sort (insertion sort): an element goes before all later
elements `b` with `le a b`; on ties the earlier element stays first,
matching the stability guarantee of Python's `sorted`. -/
def sortBy (le : Nat → Nat → Bool) : List Nat → List Nat
  | [] => []
  | a :: as' => insertBy le a (sortBy le as')

/-- Model of `sumy`'s `_get_best_sentences` as invoked by
`TextRankSummarizer.__call__`: stable-sort the sentence indices by
score descending (`sorted(..., key=rating, reverse=True)`), keep the
first `k`, and emit the chosen sentences in original document order
(`sorted(..., key=order)`).  `scores` abstracts the TextRank
ratings. -/
def selectTopK (scores : Nat → Int) (sents : List String) (k : Nat) : List String :=
  let chosen := (sortBy (fun i j => decide (scores j ≤ scores i)) (List.range sents.length)).take k
  (sents.enum.filter fun p => decide (p.1 ∈ chosen)).map Prod.snd

/-- Post-processing of main.py line 145: keep the selected sentences
whose raw text has a non-whitespace character (`if s.strip()`), and
normalize each survivor. -/
def postProcess (sel : List String) : List String :=
  (sel.filter hasNonWs).map normalizeSentence

/-- Sentence list produced by `summarize_text` (main.py lines
132-147) before bullet rendering.  Oracles: `tok` is the sentence
tokenization `PlaintextParser`/`Tokenizer` pipeline
(`parser.document.sentences`), `scores` the TextRank ratings, and
`ranker_ok` whether `summarizer(parser.document, k)` succeeds; on
failure the source falls back to the first `k` document sentences. -/
def summarize_sents (tok : String → List String) (scores : Nat → Int) (ranker_ok : Bool)
    (text : String) (k : Nat) : List String :=
  if text = "" then []
  else postProcess (if ranker_ok then selectTopK scores (tok text) k else (tok text).take k)

/-- Embedding of `summarize_text` (main.py lines 132-148): empty
string when no sentence survives, otherwise one `- ….` bullet line per
sentence. -/
def summarize_text (tok : String → List String) (scores : Nat → Int) (ranker_ok : Bool)
    (text : String) (k : Nat) : String :=
  let sents := summarize_sents tok scores ranker_ok text k
  if sents = [] then ""
  else String.intercalate "\n" (sents.map fun s => "- " ++ s ++ ".")

/-- Model of `urlparse(url).netloc` for the common absolute-URL shape:
the host part between `://` and the next `/`, `?` or `#`; empty when
the URL has no `://`. -/
def netlocChars : List Char → List Char
  | [] => []
  | ':' :: '/' :: '/' :: rest => rest.takeWhile fun c => !(c = '/' || c = '?' || c = '#')
  | _ :: rest => netlocChars rest

/-- Embedding of `domain_of` (main.py lines 150-154): the netloc with
every occurrence of `"www."` removed (Python's `str.replace`). -/
def domain_of (url : String) : String :=
  (String.mk (netlocChars url.data)).replace "www." ""

/-- Raw feed entry as consumed by the collection loop: title and link,
the hint text already recovered from the entry's HTML
summary/content field by `html_to_text` (an external
`BeautifulSoup`-based cleanup, abstracted here), and the
published/updated timestamps. -/
structure RawEntry where
  title : String
  link : String
  hintText : String
  published : String
  updated : String
deriving DecidableEq

/-- Collected item (main.py lines 246-253). -/
structure Item where
  title : String
  link : String
  source : String
  uid : String
  hint : String
  published : String
deriving DecidableEq

/-- Item together with its summary (main.py line 271). -/
structure Result extends Item where
  summary : String
deriving DecidableEq

/-- Persisted history entry (main.py lines 290-297). -/
structure HistoryEntry where
  uid : String
  title : String
  link : String
  source : String
  published : String
  summary : String
deriving DecidableEq

/-- Item built from a raw entry whose link is non-blank (main.py lines
218-253): strip the link, resolve the original URL, fall back to the
raw link when resolution yields an empty string (`orig or link`), and
compute the uid as `hash_id(orig or link)`; `hash` abstracts
`hash_id` (truncated SHA-1). -/
def mkItem (hash : String → String) (e : RawEntry) : Item :=
  let link := pyStrip e.link
  let orig := extract_original_url link
  let target := if orig = "" then link else orig
  { title := if pyStrip e.title = "" then "(Sans titre)" else pyStrip e.title
    link := target
    source := domain_of target
    uid := hash target
    hint := e.hintText
    published := if e.published = "" then e.updated else e.published }

/-- Uid a raw entry would receive. -/
def entryUid (hash : String → String) (e : RawEntry) : String := (mkItem hash e).uid

/-- Embedding of the collection loop (main.py lines 209-253): each
feed contributes at most `maxPerFeed` entries; entries with a blank
link are dropped; an entry whose uid is already in the seen set
loaded at run start is skipped.  The seen set is not modified during
collection. -/
def collect (hash : String → String) (seen0 : Finset String)
    (feeds : List (List RawEntry)) (maxPerFeed : Nat) : List Item :=
  ((feeds.map fun fp => fp.take maxPerFeed).flatten).filterMap fun e =>
    if pyStrip e.link = "" then none
    else if (mkItem hash e).uid ∈ seen0 then none else some (mkItem hash e)

/-- Embedding of `base_text = full or hint or title` (main.py line
265): the text selector's fallback chain. -/
def select_text (full hint title : String) : String :=
  if full ≠ "" then full else if hint ≠ "" then hint else title

/-- Processing of one collected item (main.py lines 258-271): fetch
(`fetchO` abstracts `fetch_text` with the run's timeout), select the
base text, summarize (`summO` abstracts `summarize_text` with the
run's sentence count), substitute the unavailable marker when the
summary is empty. -/
def processItem (fetchO : String → String) (summO : String → String) (it : Item) : Result :=
  let full := fetchO it.link
  let base := select_text full it.hint it.title
  let summary0 := if base = "" then "" else summO base
  let summary :=
    if summary0 = "" then "- (Résumé indisponible – texte non détecté)." else summary0
  { it with summary := summary }

/-- Embedding of the fetch/summarize loop (main.py lines 257-275):
per item, on success append the result and add the uid to the seen
set; `failO` abstracts the `except` branch (an exception inside the
`try` skips both). -/
def processItems (fetchO : String → String) (summO : String → String) (failO : Item → Bool) :
    List Item → List Result × Finset String → List Result × Finset String
  | [], acc => acc
  | it :: rest, (res, seen) =>
      if failO it then processItems fetchO summO failO rest (res, seen)
      else
        processItems fetchO summO failO rest
          (res ++ [processItem fetchO summO it], insert it.uid seen)

/-- History entry written for a result (main.py lines 290-297). -/
def toHistoryEntry (res : Result) : HistoryEntry :=
  { uid := res.uid
    title := res.title
    link := res.link
    source := res.source
    published := res.published
    summary := res.summary }

/-- Uid set of a history list, modelling
`known_ids = {entry.get("uid") for entry in history_entries}`. -/
def uidSet (h : List HistoryEntry) : Finset String := (h.map HistoryEntry.uid).toFinset

/-- Embedding of the history-merge loop (main.py lines 287-299): a
result is appended exactly when its uid is not in `known`, and the
appended uid joins `known`. -/
def historyLoop :
    List Result → List HistoryEntry × Finset String → List HistoryEntry × Finset String
  | [], acc => acc
  | res :: rest, (hist, known) =>
      if res.uid ∈ known then historyLoop rest (hist, known)
      else historyLoop rest (hist ++ [toHistoryEntry res], insert res.uid known)

/-- Embedding of the append-only history update of `main` (main.py
lines 284-299): start from the loaded history and its uid set, fold
the run's results through `historyLoop`. -/
def mergeHistory (history0 : List HistoryEntry) (results : List Result) : List HistoryEntry :=
  (historyLoop results (history0, uidSet history0)).1

/-- Final state of one run: the day's results, the seen set that
`save_seen` persists, and the history that `save_history` persists. -/
structure RunOut where
  results : List Result
  seen : Finset String
  history : List HistoryEntry

/-- Embedding of the run loop of `main` (main.py lines 194-339),
with I/O at the boundary: `seen0` and `history0` are the states
produced by `load_seen`/`load_history` (either may have degraded to
empty on a read failure), `feeds` the parsed per-feed entry lists,
and the oracles abstract hashing, fetching, summarizing, and
per-item failure. -/
def runMain (hash : String → String) (fetchO : String → String) (summO : String → String)
    (failO : Item → Bool) (seen0 : Finset String) (history0 : List HistoryEntry)
    (feeds : List (List RawEntry)) (maxPerFeed : Nat) : RunOut :=
  { results := (processItems fetchO summO failO (collect hash seen0 feeds maxPerFeed) ([], seen0)).1
    seen := (processItems fetchO summO failO (collect hash seen0 feeds maxPerFeed) ([], seen0)).2
    history :=
      mergeHistory history0
        (processItems fetchO summO failO (collect hash seen0 feeds maxPerFeed) ([], seen0)).1 }

lemma unquoteChars_ne_nil : ∀ (l : List Char), l ≠ [] → unquoteChars l ≠ [] := by
  intro l hl
  induction l using unquoteChars.induct
  all_goals simp_all [unquoteChars]

lemma unquote_plus_ne_empty {v : List Char} (hv : v ≠ []) : unquote_plus v ≠ "" := by
  intro h
  apply unquoteChars_ne_nil (v.map fun c => if c = '+' then ' ' else c) (by simpa using hv)
  simpa [unquote_plus, String.ext_iff] using h

lemma parse_qsl_values_ne_empty (qs : List Char) : ∀ p ∈ parse_qsl qs, p.2 ≠ "" := by
  intro p hp
  obtain ⟨nv, _, hnv⟩ := List.mem_filterMap.mp hp
  by_cases h0 : nv = []
  · simp [h0] at hnv
  · rw [if_neg h0] at hnv
    rcases hsp : splitFirstChar '=' nv with _ | ⟨n, v⟩ <;> rw [hsp] at hnv <;>
      dsimp only at hnv
    · simp at hnv
    · by_cases hv : v = []
      · simp [hv] at hnv
      · rw [if_neg hv] at hnv
        obtain rfl := Option.some.inj hnv
        exact unquote_plus_ne_empty hv

/-- C3: the text selected for summarization is `full_text` when
non-empty, else `hint_text` when non-empty, else `title`; `hint_text`
is ignored whenever `full_text` is present, and `title` is used
exactly when both are empty. -/
theorem text_selector_fallback_chain (full hint title : String) :
    (full ≠ "" → select_text full hint title = full) ∧
    (full = "" → hint ≠ "" → select_text full hint title = hint) ∧
    (full = "" → hint = "" → select_text full hint title = title) := by
  refine ⟨fun h => ?_, fun h1 h2 => ?_, fun h1 h2 => ?_⟩ <;> simp [select_text, *]

theorem text_selector_fallback_chain_witness :
    select_text "texte complet" "indice" "Titre" = "texte complet" ∧
    select_text "" "indice" "Titre" = "indice" ∧
    select_text "" "" "Titre" = "Titre" :=
  ⟨(text_selector_fallback_chain "texte complet" "indice" "Titre").1 (by decide),
   (text_selector_fallback_chain "" "indice" "Titre").2.1 rfl (by decide),
   (text_selector_fallback_chain "" "" "Titre").2.2 rfl rfl⟩

/-- C8: the resolver always returns either the input unchanged or the
percent-decoded value of one of the three inspected candidate keys,
and when no candidate key matches it returns the original link
unchanged.  Totality holds by construction: the embedding of the
`try`-wrapped body is a total function. -/
theorem resolver_identity_fallback (url : String) :
    (extract_original_url url = url ∨
      ∃ v, (firstVal (qsQuery url) "url" = some v ∨ firstVal (qsQuery url) "q" = some v ∨
            firstVal (qsFrag url) "url" = some v) ∧ extract_original_url url = unquote v) ∧
    (firstVal (qsQuery url) "url" = none → firstVal (qsQuery url) "q" = none →
      firstVal (qsFrag url) "url" = none → extract_original_url url = url) := by
  constructor
  · rcases h1 : firstVal (qsQuery url) "url" with _ | v
    · rcases h2 : firstVal (qsQuery url) "q" with _ | v
      · rcases h3 : firstVal (qsFrag url) "url" with _ | v
        · exact Or.inl (by simp [extract_original_url, h1, h2, h3])
        · exact Or.inr ⟨v, Or.inr (Or.inr rfl), by simp [extract_original_url, h1, h2, h3]⟩
      · exact Or.inr ⟨v, Or.inr (Or.inl rfl), by simp [extract_original_url, h1, h2]⟩
    · exact Or.inr ⟨v, Or.inl rfl, by simp [extract_original_url, h1]⟩
  · intro h1 h2 h3
    simp [extract_original_url, h1, h2, h3]

theorem resolver_identity_fallback_witness :
    (extract_original_url "https://example.com/a" = "https://example.com/a" ∨
      ∃ v, (firstVal (qsQuery "https://example.com/a") "url" = some v ∨
            firstVal (qsQuery "https://example.com/a") "q" = some v ∨
            firstVal (qsFrag "https://example.com/a") "url" = some v) ∧
           extract_original_url "https://example.com/a" = unquote v) ∧
    extract_original_url "https://example.com/a" = "https://example.com/a" :=
  ⟨(resolver_identity_fallback "https://example.com/a").1,
   (resolver_identity_fallback "https://example.com/a").2 (by decide) (by decide) (by decide)⟩

/-- C9: on a link already in canonical form — no extractable `url` or
`q` target in the query and no extractable `url` target in the
fragment — the resolver is the identity, hence idempotent. -/
theorem resolver_idempotent_on_canonical (x : String)
    (h1 : firstVal (qsQuery x) "url" = none) (h2 : firstVal (qsQuery x) "q" = none)
    (h3 : firstVal (qsFrag x) "url" = none) :
    extract_original_url (extract_original_url x) = extract_original_url x := by
  have hx : extract_original_url x = x := by simp [extract_original_url, h1, h2, h3]
  rw [hx, hx]

theorem resolver_idempotent_on_canonical_witness :
    extract_original_url (extract_original_url "https://example.com/a")
      = extract_original_url "https://example.com/a" :=
  resolver_idempotent_on_canonical "https://example.com/a" (by decide) (by decide) (by decide)

/-- C2 counterexample: a Google-redirect-style link whose only
embedded target is a `q` parameter inside the fragment.  The fragment
parse does contain `q` with the percent-decoded target
`https://example.com/a`, the query carries no candidate at all, yet
`extract_original_url` returns the link unchanged instead of the
decoded target, because the source only looks for `url` in the
fragment. -/
theorem resolver_fragment_q_counterexample :
    qsQuery "https://alerts.google.com/x#q=https%3A%2F%2Fexample.com%2Fa" = [] ∧
    firstVal (qsFrag "https://alerts.google.com/x#q=https%3A%2F%2Fexample.com%2Fa") "q"
      = some "https://example.com/a" ∧
    extract_original_url "https://alerts.google.com/x#q=https%3A%2F%2Fexample.com%2Fa"
      = "https://alerts.google.com/x#q=https%3A%2F%2Fexample.com%2Fa" ∧
    "https://alerts.google.com/x#q=https%3A%2F%2Fexample.com%2Fa"
      ≠ "https://example.com/a" := by
  refine ⟨by decide, by decide, by decide, by decide⟩

/-- C2 (amended): the resolver inspects query parameter `url`, then
query parameter `q`, then only the key `url` inside the fragment (the
key `q` is never looked up in the fragment); the first present value
is percent-decoded and returned, otherwise the link is returned
unchanged; all parsed values are non-empty by construction of
`parse_qs`. -/
theorem resolver_inspection_order (url : String) :
    (∀ v, firstVal (qsQuery url) "url" = some v → extract_original_url url = unquote v) ∧
    (firstVal (qsQuery url) "url" = none →
      ∀ v, firstVal (qsQuery url) "q" = some v → extract_original_url url = unquote v) ∧
    (firstVal (qsQuery url) "url" = none → firstVal (qsQuery url) "q" = none →
      ∀ v, firstVal (qsFrag url) "url" = some v → extract_original_url url = unquote v) ∧
    (firstVal (qsQuery url) "url" = none → firstVal (qsQuery url) "q" = none →
      firstVal (qsFrag url) "url" = none → extract_original_url url = url) ∧
    (∀ p ∈ qsQuery url, p.2 ≠ "") ∧ (∀ p ∈ qsFrag url, p.2 ≠ "") := by
  refine ⟨fun v h1 => ?_, fun h1 v h2 => ?_, fun h1 h2 v h3 => ?_, fun h1 h2 h3 => ?_,
    parse_qsl_values_ne_empty _, parse_qsl_values_ne_empty _⟩ <;>
    simp [extract_original_url, h1, *]

theorem resolver_inspection_order_witness :
    extract_original_url "https://www.google.com/url?q=https%3A%2F%2Fexample.com%2Fa&x=1"
      = unquote "https://example.com/a" ∧
    extract_original_url "https://x.test/a#url=https%3A%2F%2Fy.test%2Fb"
      = unquote "https://y.test/b" :=
  ⟨(resolver_inspection_order
      "https://www.google.com/url?q=https%3A%2F%2Fexample.com%2Fa&x=1").2.1
      (by decide) "https://example.com/a" (by decide),
   (resolver_inspection_order "https://x.test/a#url=https%3A%2F%2Fy.test%2Fb").2.2.1
      (by decide) (by decide) "https://y.test/b" (by decide)⟩

lemma extractStage_ok (extract : String → Except Unit (Option String))
    (hex : ∀ s, ∃ t, extract s = Except.ok t) (payload : String) :
    ∃ s, extractStage extract payload = Except.ok s := by
  obtain ⟨t, ht⟩ := hex payload
  exact ⟨t.getD "", by simp [extractStage, ht]⟩

/-- Oracle values for the C1 counterexample: strategy A succeeds with
a non-empty payload, and the main-content extraction raises. -/
def fuCE : Except Unit (Option String) := Except.ok (some "<html>page</html>")

/-- Strategy-B oracle for the C1 counterexample (unreached). -/
def rgCE : Except Unit String := Except.ok "<html>page</html>"

/-- Extraction oracle that raises, as `trafilatura.extract` can. -/
def exCE : String → Except Unit (Option String) := fun _ => Except.error ()

/-- C1 counterexample: when the download stages succeed but the
main-content extraction stage raises, the exception propagates out of
`fetch_text` — the source wraps stages A and B in `try/except` but
calls `trafilatura.extract` with no handler, so the function is not
total over the behaviours of its stages. -/
theorem fetch_text_unguarded_extraction_counterexample :
    fetch_text fuCE rgCE exCE = Except.error () := rfl

/-- C1 (amended): every exception raised in the two download stages
(direct download, headered HTTP GET) is swallowed inside `fetch_text`
— in particular both download stages failing yields the empty string —
and whenever the main-content extraction stage does not raise,
`fetch_text` returns a string; only an exception raised by the
extraction stage itself propagates to the caller. -/
theorem fetch_text_total_up_to_extraction (fu : Except Unit (Option String))
    (rg : Except Unit String) (extract : String → Except Unit (Option String))
    (hex : ∀ s, ∃ t, extract s = Except.ok t) :
    (∃ s, fetch_text fu rg extract = Except.ok s) ∧
    fetch_text (Except.error ()) (Except.error ()) extract = Except.ok "" := by
  constructor
  · unfold fetch_text
    rcases fu with e | d
    · rcases rg with e' | t
      · exact ⟨"", rfl⟩
      · exact extractStage_ok extract hex t
    · rcases d with _ | s
      · rcases rg with e' | t
        · exact ⟨"", rfl⟩
        · exact extractStage_ok extract hex t
      · by_cases hs : s = ""
        · rcases rg with e' | t
          · exact ⟨"", by simp [hs]⟩
          · simpa [hs] using extractStage_ok extract hex t
        · simpa [hs] using extractStage_ok extract hex s
  · rfl

/-- Extraction oracle that never raises, for the C1 witness. -/
def exOkCE : String → Except Unit (Option String) := fun s => Except.ok (some s)

theorem fetch_text_total_up_to_extraction_witness :
    (∃ s, fetch_text fuCE rgCE exOkCE = Except.ok s) ∧
    fetch_text (Except.error ()) (Except.error ()) exOkCE = Except.ok "" :=
  fetch_text_total_up_to_extraction fuCE rgCE exOkCE fun s => ⟨some s, rfl⟩

lemma insertBy_perm (le : Nat → Nat → Bool) (a : Nat) (l : List Nat) :
    (insertBy le a l).Perm (a :: l) := by
  induction l with
  | nil => exact List.Perm.refl _
  | cons b bs ih =>
      by_cases h : le a b
      · simp [insertBy, h]
      · simp only [insertBy, h, if_false, Bool.false_eq_true]
        exact (ih.cons b).trans (List.Perm.swap a b bs)

lemma sortBy_perm (le : Nat → Nat → Bool) (l : List Nat) : (sortBy le l).Perm l := by
  induction l with
  | nil => exact List.Perm.refl _
  | cons a as' ih => exact (insertBy_perm le a (sortBy le as')).trans (ih.cons a)

lemma filter_enum_map_snd_sublist (sents : List String) (P : Nat × String → Bool) :
    ((sents.enum.filter P).map Prod.snd).Sublist sents := by
  have h := (List.filter_sublist (p := P) sents.enum).map Prod.snd
  rwa [List.enum_map_snd] at h

lemma filter_enum_mem_length (sents : List String) (chosen : List Nat)
    (hnd : chosen.Nodup) (hbound : ∀ x ∈ chosen, x < sents.length) :
    ((sents.enum.filter fun p => decide (p.1 ∈ chosen)).map Prod.snd).length
      = chosen.length := by
  rw [List.length_map, ← List.countP_eq_length_filter]
  have h1 : List.countP (fun p => decide (p.1 ∈ chosen)) sents.enum
      = List.countP (fun i => decide (i ∈ chosen)) (List.range sents.length) := by
    rw [← List.enum_map_fst sents, List.countP_map]
    rfl
  rw [h1, List.countP_eq_length_filter]
  have hpm : ((List.range sents.length).filter fun i => decide (i ∈ chosen)).Perm chosen := by
    rw [List.perm_ext_iff_of_nodup ((List.nodup_range sents.length).filter _) hnd]
    intro a
    simp only [List.mem_filter, List.mem_range, decide_eq_true_eq]
    exact ⟨fun h => h.2, fun h => ⟨hbound a h, h⟩⟩
  exact hpm.length_eq

lemma selectTopK_sublist (scores : Nat → Int) (sents : List String) (k : Nat) :
    (selectTopK scores sents k).Sublist sents :=
  filter_enum_map_snd_sublist sents _

lemma length_selectTopK (scores : Nat → Int) (sents : List String) (k : Nat) :
    (selectTopK scores sents k).length = min k sents.length := by
  unfold selectTopK
  have hperm : (sortBy (fun i j => decide (scores j ≤ scores i))
      (List.range sents.length)).Perm (List.range sents.length) := sortBy_perm _ _
  have hnd : ((sortBy (fun i j => decide (scores j ≤ scores i))
      (List.range sents.length)).take k).Nodup :=
    List.Nodup.sublist (List.take_sublist k _) (hperm.symm.nodup (List.nodup_range _))
  have hbound : ∀ x ∈ (sortBy (fun i j => decide (scores j ≤ scores i))
      (List.range sents.length)).take k, x < sents.length := by
    intro x hx
    exact List.mem_range.mp (hperm.mem_iff.mp (List.take_subset k _ hx))
  rw [filter_enum_mem_length sents _ hnd hbound, List.length_take, hperm.length_eq,
    List.length_range]

lemma postProcess_length (sel : List String) (h : ∀ s ∈ sel, hasNonWs s = true) :
    (postProcess sel).length = sel.length := by
  unfold postProcess
  rw [List.filter_eq_self.mpr h, List.length_map]

lemma postProcess_sublist (sel l : List String) (h : sel.Sublist l) :
    (postProcess sel).Sublist (l.map normalizeSentence) :=
  ((List.filter_sublist sel).trans h).map normalizeSentence

/-- C5: the sentences emitted by the summarizer form a subsequence of
the source's sentence list (each cleaned up by the source's
whitespace/punctuation normalization): they appear in the same
relative order as in the source text, whatever the rank scores, the
requested count, and whether the ranker succeeded or fell back to
leading sentences. -/
theorem summarizer_order_preserved (tok : String → List String) (scores : Nat → Int)
    (ranker_ok : Bool) (text : String) (k : Nat) :
    (summarize_sents tok scores ranker_ok text k).Sublist
      ((tok text).map normalizeSentence) := by
  unfold summarize_sents
  by_cases ht : text = ""
  · simp [ht]
  · rw [if_neg ht]
    cases ranker_ok
    · exact postProcess_sublist _ _ (List.take_sublist k (tok text))
    · exact postProcess_sublist _ _ (selectTopK_sublist scores (tok text) k)


/-- C4 counterexample: with a one-sentence text and requested count
`k = 0`, the summarizer yields `min 0 1 = 0` sentences although the
text has a sentence, refuting "yields 0 sentences only when `n = 0`"
as stated for every requested count. -/
def tokCE4 : String → List String := fun _ => ["Une phrase simple"]

/-- Score oracle for the C4 theorems. -/
def scoresCE4 : Nat → Int := fun _ => 0

theorem summarizer_zero_only_when_empty_counterexample :
    (summarize_sents tokCE4 scoresCE4 true "Une phrase simple" 0).length = 0 ∧
    (tokCE4 "Une phrase simple").length ≠ 0 := by
  refine ⟨by decide, by decide⟩

/-- C4 (amended): provided the sentence tokenizer yields no
whitespace-only sentences (so the `if s.strip()` filter keeps every
selected sentence) and tokenizes the empty text to no sentences, the
summarizer yields exactly `min k n` sentences for a text of `n`
sentences; consequently, for every requested count `k ≥ 1` it yields
0 sentences exactly when `n = 0`. -/
theorem summarizer_sentence_bound (tok : String → List String) (scores : Nat → Int)
    (ranker_ok : Bool) (text : String) (k : Nat)
    (hblank : ∀ s ∈ tok text, hasNonWs s = true)
    (hempty : text = "" → tok text = []) :
    (summarize_sents tok scores ranker_ok text k).length = min k (tok text).length ∧
    (1 ≤ k →
      ((summarize_sents tok scores ranker_ok text k).length = 0 ↔ (tok text).length = 0)) := by
  have hmain :
      (summarize_sents tok scores ranker_ok text k).length = min k (tok text).length := by
    unfold summarize_sents
    by_cases ht : text = ""
    · subst ht
      simp [hempty rfl]
    · rw [if_neg ht]
      cases ranker_ok
      · have hsub := List.take_sublist k (tok text)
        show (postProcess ((tok text).take k)).length = _
        rw [postProcess_length _ fun s hs => hblank s (hsub.subset hs), List.length_take]
      · have hsub := selectTopK_sublist scores (tok text) k
        show (postProcess (selectTopK scores (tok text) k)).length = _
        rw [postProcess_length _ fun s hs => hblank s (hsub.subset hs), length_selectTopK]
  refine ⟨hmain, fun hk => ?_⟩
  rw [hmain]
  omega

/-- Tokenizer oracle for the C4 witness. -/
def tokW4 : String → List String := fun _ => ["Il pleut beaucoup", "Le vent souffle"]

theorem summarizer_sentence_bound_witness :
    (summarize_sents tokW4 scoresCE4 true "Il pleut beaucoup. Le vent souffle." 4).length
        = min 4 (tokW4 "Il pleut beaucoup. Le vent souffle.").length ∧
    (1 ≤ 4 →
      ((summarize_sents tokW4 scoresCE4 true "Il pleut beaucoup. Le vent souffle." 4).length = 0
        ↔ (tokW4 "Il pleut beaucoup. Le vent souffle.").length = 0)) :=
  summarizer_sentence_bound tokW4 scoresCE4 true "Il pleut beaucoup. Le vent souffle." 4
    (by decide) (by decide)

lemma processItems_seen_mono (fO sO : String → String) (flO : Item → Bool)
    (items : List Item) (acc : List Result × Finset String) {x : String} (hx : x ∈ acc.2) :
    x ∈ (processItems fO sO flO items acc).2 := by
  induction items generalizing acc with
  | nil => exact hx
  | cons it rest ih =>
      rcases acc with ⟨res, seen⟩
      by_cases hf : flO it = true
      · simp only [processItems]
        rw [if_pos hf]
        exact ih _ hx
      · simp only [processItems]
        rw [if_neg hf]
        exact ih _ (Finset.mem_insert_of_mem hx)

lemma processItems_results_uid_seen (fO sO : String → String) (flO : Item → Bool)
    (items : List Item) (acc : List Result × Finset String)
    (hacc : ∀ r ∈ acc.1, r.uid ∈ acc.2) :
    ∀ r ∈ (processItems fO sO flO items acc).1,
      r.uid ∈ (processItems fO sO flO items acc).2 := by
  induction items generalizing acc with
  | nil => exact hacc
  | cons it rest ih =>
      rcases acc with ⟨res, seen⟩
      by_cases hf : flO it = true
      · simp only [processItems]
        rw [if_pos hf]
        exact ih _ hacc
      · simp only [processItems]
        rw [if_neg hf]
        apply ih
        intro r hr
        rcases List.mem_append.mp hr with h | h
        · exact Finset.mem_insert_of_mem (hacc r h)
        · rw [List.mem_singleton] at h
          subst h
          exact Finset.mem_insert_self _ _

lemma historyLoop_mem (results : List Result) (acc : List HistoryEntry × Finset String)
    (e : HistoryEntry) (he : e ∈ (historyLoop results acc).1) :
    e ∈ acc.1 ∨ ∃ r ∈ results, e = toHistoryEntry r := by
  induction results generalizing acc with
  | nil => exact Or.inl he
  | cons res rest ih =>
      rcases acc with ⟨hist, known⟩
      by_cases hk : res.uid ∈ known
      · simp only [historyLoop] at he
        rw [if_pos hk] at he
        rcases ih _ he with h | ⟨r, hr, h⟩
        · exact Or.inl h
        · exact Or.inr ⟨r, List.mem_cons_of_mem _ hr, h⟩
      · simp only [historyLoop] at he
        rw [if_neg hk] at he
        rcases ih _ he with h | ⟨r, hr, h⟩
        · rcases List.mem_append.mp h with h' | h'
          · exact Or.inl h'
          · rw [List.mem_singleton] at h'
            exact Or.inr ⟨res, List.mem_cons_self _ _, h'⟩
        · exact Or.inr ⟨r, List.mem_cons_of_mem _ hr, h⟩

/-- C6 counterexample state: a history loaded intact while `seen.json`
failed to load (so the seen set degraded to empty), with no feed entry
for the historical article in the current run. -/
def hashCE6 : String → String := fun s => s

/-- Fetch oracle for the C6 theorems. -/
def fetchCE6 : String → String := fun _ => ""

/-- Summarizer oracle for the C6 theorems. -/
def summCE6 : String → String := fun _ => ""

/-- Failure oracle for the C6 theorems: no item fails. -/
def failCE6 : Item → Bool := fun _ => false

/-- Loaded history for the C6 theorems. -/
def histCE6 : List HistoryEntry :=
  [{ uid := "9f2c3a1b55", title := "Ancien article", link := "https://example.com/vieux",
     source := "example.com", published := "", summary := "- Ancien résumé." }]

/-- C6 counterexample: a successful run that starts from an empty
seen set (as happens when loading `seen.json` fails and is recovered
non-fatally) but a non-empty loaded history, and whose feeds no longer
mention the historical article.  After the run the history still
records uid `9f2c3a1b55` while the persisted seen set does not contain
it: the history uid set is not a subset of the seen set. -/
theorem history_subset_seen_counterexample :
    "9f2c3a1b55" ∈ ((runMain hashCE6 fetchCE6 summCE6 failCE6 ∅ histCE6 [] 20).history.map
        HistoryEntry.uid) ∧
    "9f2c3a1b55" ∉ (runMain hashCE6 fetchCE6 summCE6 failCE6 ∅ histCE6 [] 20).seen := by
  refine ⟨by decide, by decide⟩

/-- C6 (amended): after every successful run whose loaded seen set
already contains every uid of the loaded history — as the program
maintains when both state files load intact — the uids recorded in
the final history are a subset of the final seen set; every uid
appended during the run is in the final seen set unconditionally. -/
theorem history_uids_subset_seen (hash fetchO summO : String → String) (failO : Item → Bool)
    (seen0 : Finset String) (history0 : List HistoryEntry) (feeds : List (List RawEntry))
    (maxPerFeed : Nat) (h : ∀ e ∈ history0, e.uid ∈ seen0) :
    ∀ e ∈ (runMain hash fetchO summO failO seen0 history0 feeds maxPerFeed).history,
      e.uid ∈ (runMain hash fetchO summO failO seen0 history0 feeds maxPerFeed).seen := by
  intro e he
  rcases historyLoop_mem _ (history0, uidSet history0) e he with h0 | ⟨r, hr, rfl⟩
  · exact processItems_seen_mono _ _ _ _ ([], seen0) (h e h0)
  · exact processItems_results_uid_seen _ _ _ _ ([], seen0)
      (fun r' hmem => absurd hmem (List.not_mem_nil r')) r hr

/-- Loaded seen set for the C6 witness: it covers the loaded history. -/
def seenW6 : Finset String := {"9f2c3a1b55"}

theorem history_uids_subset_seen_witness :
    "9f2c3a1b55" ∈ (runMain hashCE6 fetchCE6 summCE6 failCE6 seenW6 histCE6 [] 20).seen :=
  history_uids_subset_seen hashCE6 fetchCE6 summCE6 failCE6 seenW6 histCE6 [] 20 (by decide)
    { uid := "9f2c3a1b55", title := "Ancien article", link := "https://example.com/vieux",
      source := "example.com", published := "", summary := "- Ancien résumé." }
    (by decide)

lemma uid_sync_insert (hist : List HistoryEntry) (known : Finset String) (res : Result)
    (hsync : ∀ x, x ∈ known ↔ x ∈ hist.map HistoryEntry.uid) :
    ∀ x, x ∈ insert res.uid known ↔ x ∈ (hist ++ [toHistoryEntry res]).map HistoryEntry.uid := by
  intro x
  simp only [List.map_append, List.mem_append, List.map_cons, List.map_nil,
    List.mem_singleton, Finset.mem_insert, hsync x]
  exact or_comm

lemma historyLoop_append_only (results : List Result)
    (acc : List HistoryEntry × Finset String) :
    ∃ t, (historyLoop results acc).1 = acc.1 ++ t := by
  induction results generalizing acc with
  | nil => exact ⟨[], (List.append_nil _).symm⟩
  | cons res rest ih =>
      rcases acc with ⟨hist, known⟩
      by_cases hk : res.uid ∈ known
      · simp only [historyLoop]
        rw [if_pos hk]
        exact ih _
      · simp only [historyLoop]
        rw [if_neg hk]
        obtain ⟨t, ht⟩ := ih (hist ++ [toHistoryEntry res], insert res.uid known)
        exact ⟨toHistoryEntry res :: t, by rw [ht, List.append_assoc]; rfl⟩

lemma historyLoop_nodup (results : List Result) (acc : List HistoryEntry × Finset String)
    (hsync : ∀ x, x ∈ acc.2 ↔ x ∈ acc.1.map HistoryEntry.uid)
    (hnd : (acc.1.map HistoryEntry.uid).Nodup) :
    ((historyLoop results acc).1.map HistoryEntry.uid).Nodup := by
  induction results generalizing acc with
  | nil => exact hnd
  | cons res rest ih =>
      rcases acc with ⟨hist, known⟩
      by_cases hk : res.uid ∈ known
      · simp only [historyLoop]
        rw [if_pos hk]
        exact ih _ hsync hnd
      · simp only [historyLoop]
        rw [if_neg hk]
        apply ih
        · exact uid_sync_insert hist known res hsync
        · have hnotin : res.uid ∉ hist.map HistoryEntry.uid := fun hm => hk ((hsync _).mpr hm)
          simp only [List.map_append, List.map_cons, List.map_nil, List.nodup_append]
          exact ⟨hnd, List.nodup_singleton _, by simpa [List.disjoint_singleton] using hnotin⟩

/-- C7: the history merge appends an entry exactly when its uid is
not already among the history's uids; over any sequence of results it
only ever appends (the loaded history is a prefix of the merged one,
never mutated, removed, or reordered); and it preserves the
at-most-once uid invariant that the program's own persisted history
always satisfies. -/
theorem append_history_spec (history0 : List HistoryEntry) (results : List Result) :
    (∀ res : Result, res.uid ∈ history0.map HistoryEntry.uid →
        mergeHistory history0 [res] = history0) ∧
    (∀ res : Result, res.uid ∉ history0.map HistoryEntry.uid →
        mergeHistory history0 [res] = history0 ++ [toHistoryEntry res]) ∧
    (∃ t, mergeHistory history0 results = history0 ++ t) ∧
    ((history0.map HistoryEntry.uid).Nodup →
        ((mergeHistory history0 results).map HistoryEntry.uid).Nodup) := by
  refine ⟨fun res h => ?_, fun res h => ?_, historyLoop_append_only results _, fun hnd => ?_⟩
  · unfold mergeHistory
    simp only [historyLoop]
    rw [if_pos (by simpa [uidSet] using h)]
  · unfold mergeHistory
    simp only [historyLoop]
    rw [if_neg (by simpa [uidSet] using h)]
  · exact historyLoop_nodup results _ (fun x => by simp [uidSet]) hnd

/-- Loaded history for the C7 witness. -/
def histC7 : List HistoryEntry :=
  [{ uid := "0a1b2c3d4e", title := "Article un", link := "https://example.com/un",
     source := "example.com", published := "", summary := "- Premier résumé." }]

/-- Fresh result for the C7 witness. -/
def resC7 : Result :=
  { title := "Article deux", link := "https://example.com/deux", source := "example.com",
    uid := "5f6a7b8c9d", hint := "", published := "", summary := "- Second résumé." }

theorem append_history_spec_witness :
    mergeHistory histC7 [resC7] = histC7 ++ [toHistoryEntry resC7] ∧
    ((mergeHistory histC7 [resC7]).map HistoryEntry.uid).Nodup :=
  ⟨(append_history_spec histC7 [resC7]).2.1 resC7 (by decide),
   (append_history_spec histC7 [resC7]).2.2.2 (by decide)⟩

/-- Feed entries that the collection loop actually considers: at most
`maxPerFeed` per feed, and only those with a non-blank link. -/
def candidates (feeds : List (List RawEntry)) (maxPerFeed : Nat) : List RawEntry :=
  ((feeds.map fun fp => fp.take maxPerFeed).flatten).filter fun e => decide (pyStrip e.link ≠ "")

lemma processItems_no_fail (fO sO : String → String) (flO : Item → Bool)
    (hfail : ∀ it, flO it = false) (items : List Item) (res : List Result)
    (seen : Finset String) :
    (processItems fO sO flO items (res, seen)).1 = res ++ items.map (processItem fO sO) := by
  induction items generalizing res seen with
  | nil => simp [processItems]
  | cons it rest ih =>
      have hf : ¬ flO it = true := by simp [hfail it]
      simp only [processItems]
      rw [if_neg hf, ih, List.map_cons, List.append_assoc]
      rfl

lemma collect_countP_aux (hash : String → String) (seen0 : Finset String) (u : String)
    (hu : u ∉ seen0) (l : List RawEntry) :
    ((l.filterMap fun e =>
        if pyStrip e.link = "" then none
        else if (mkItem hash e).uid ∈ seen0 then none else some (mkItem hash e)).countP
      fun it => decide (it.uid = u))
    = ((l.filter fun e => decide (pyStrip e.link ≠ "")).countP
        fun e => decide (entryUid hash e = u)) := by
  induction l with
  | nil => rfl
  | cons e rest ih =>
      by_cases hb : pyStrip e.link = ""
      · simp [List.filterMap_cons, List.filter_cons, hb, ih]
      · by_cases hseen : (mkItem hash e).uid ∈ seen0
        · have hne : ¬ entryUid hash e = u := fun h => hu (h ▸ hseen)
          simp [List.filterMap_cons, List.filter_cons, List.countP_cons, hb, hseen, ih, hne]
        · simp only [List.filterMap_cons, List.filter_cons, hb, hseen, if_neg, ite_false,
            ite_true, if_pos, decide_not]
          simp [List.countP_cons, ih, entryUid]

lemma historyLoop_countP_le_one (u : String) (results : List Result)
    (acc : List HistoryEntry × Finset String)
    (hsync : ∀ x, x ∈ acc.2 ↔ x ∈ acc.1.map HistoryEntry.uid)
    (hcnt : (acc.1.countP fun e => decide (e.uid = u)) ≤ 1) :
    ((historyLoop results acc).1.countP fun e => decide (e.uid = u)) ≤ 1 := by
  induction results generalizing acc with
  | nil => exact hcnt
  | cons res rest ih =>
      rcases acc with ⟨hist, known⟩
      by_cases hk : res.uid ∈ known
      · simp only [historyLoop]
        rw [if_pos hk]
        exact ih _ hsync hcnt
      · simp only [historyLoop]
        rw [if_neg hk]
        apply ih _ (uid_sync_insert hist known res hsync)
        rw [List.countP_append]
        by_cases hr : res.uid = u
        · have h0 : (hist.countP fun e => decide (e.uid = u)) = 0 := by
            rw [List.countP_eq_zero]
            intro e he hpe
            exact hk ((hsync _).mpr (List.mem_map.mpr ⟨e, he,
              ((of_decide_eq_true hpe).trans hr.symm : e.uid = res.uid)⟩))
          rw [h0]
          simp only [List.countP_cons, List.countP_nil, Nat.zero_add]
          split <;> omega
        · have h1 : (([toHistoryEntry res].countP fun e => decide (e.uid = u))) = 0 := by
            simp [List.countP_cons, toHistoryEntry, hr]
          rw [h1]
          dsimp only at hcnt
          omega

/-- C10: the dedup check during collection consults only the seen set
loaded at run start (`seen` is mutated only afterwards, in the
fetch/summarize loop), so a uid not in the loaded seen set is
collected, processed, and placed in the run's results once per
considered occurrence across all feeds — the result count for that
uid equals its occurrence count among the considered entries — while
the merged history still records that uid at most once. -/
theorem dedup_checks_initial_seen_only (hash fetchO summO : String → String)
    (failO : Item → Bool) (seen0 : Finset String) (history0 : List HistoryEntry)
    (feeds : List (List RawEntry)) (maxPerFeed : Nat) (u : String)
    (hfail : ∀ it, failO it = false) (hu : u ∉ seen0) :
    (((runMain hash fetchO summO failO seen0 history0 feeds maxPerFeed).results.countP
        fun r => decide (r.uid = u))
      = ((candidates feeds maxPerFeed).countP fun e => decide (entryUid hash e = u))) ∧
    (u ∉ history0.map HistoryEntry.uid →
      ((runMain hash fetchO summO failO seen0 history0 feeds maxPerFeed).history.countP
          fun e => decide (e.uid = u)) ≤ 1) := by
  constructor
  · show ((processItems fetchO summO failO (collect hash seen0 feeds maxPerFeed)
        ([], seen0)).1.countP fun r => decide (r.uid = u)) = _
    rw [processItems_no_fail fetchO summO failO hfail, List.nil_append, List.countP_map]
    exact collect_countP_aux hash seen0 u hu _
  · intro hh
    apply historyLoop_countP_le_one u _ (history0, uidSet history0) fun x => by simp [uidSet]
    rw [List.countP_eq_zero.mpr fun e he hpe => hh
      (List.mem_map.mpr ⟨e, he, of_decide_eq_true hpe⟩)]
    omega

/-- Hash oracle for the C10 witness. -/
def hashW10 : String → String := fun s => s

/-- Fetch oracle for the C10 witness. -/
def fetchW10 : String → String := fun _ => ""

/-- Summarizer oracle for the C10 witness. -/
def summW10 : String → String := fun _ => ""

/-- Failure oracle for the C10 witness: no item fails. -/
def failW10 : Item → Bool := fun _ => false

/-- One feed entry, configured in two different feeds, for the C10
witness. -/
def entryW10 : RawEntry :=
  { title := "Alerte cyber", link := "https://cible.example/a", hintText := "",
    published := "", updated := "" }

theorem dedup_checks_initial_seen_only_witness :
    (((runMain hashW10 fetchW10 summW10 failW10 ∅ [] [[entryW10], [entryW10]] 20).results.countP
        fun r => decide (r.uid = "https://cible.example/a"))
      = ((candidates [[entryW10], [entryW10]] 20).countP
          fun e => decide (entryUid hashW10 e = "https://cible.example/a"))) ∧
    ("https://cible.example/a" ∉ ([] : List HistoryEntry).map HistoryEntry.uid →
      ((runMain hashW10 fetchW10 summW10 failW10 ∅ [] [[entryW10], [entryW10]] 20).history.countP
          fun e => decide (e.uid = "https://cible.example/a")) ≤ 1) :=
  dedup_checks_initial_seen_only hashW10 fetchW10 summW10 failW10 ∅ []
    [[entryW10], [entryW10]] 20 "https://cible.example/a" (fun _ => rfl) (by decide)

example :
    ((runMain hashW10 fetchW10 summW10 failW10 ∅ [] [[entryW10], [entryW10]] 20).results.countP
        fun r => decide (r.uid = "https://cible.example/a")) = 2 ∧
    ((runMain hashW10 fetchW10 summW10 failW10 ∅ [] [[entryW10], [entryW10]] 20).history.countP
        fun e => decide (e.uid = "https://cible.example/a")) = 1 := by
  refine ⟨by decide, by decide⟩
